import Mathlib

/-!
Verification of the in-memory session store (`packages/backend/src/sessionStore.js`)
against its specification.

The JavaScript module is embedded shallowly:

* wall-clock time is an explicit `now : Nat` argument (milliseconds since epoch);
  `Date#toISOString`/`new Date(string)` round-trip at millisecond precision, so an
  ISO timestamp string is represented by its millisecond value;
* the JS `Map` (whose iteration order is insertion order, with `set` on an
  existing key keeping the original position) is an association list
  `List (String × Entry)`;
* a session value is opaque to the store except for the length of its JSON
  serialization and its optional `createdAt` field, so it is modelled as a
  payload tag together with `serializedSize` and `createdAt`;
* a thrown exception is a `JsResult.err`.  `Date#toISOString` throws a
  RangeError ("Invalid time value") for timestamps beyond the maximal
  representable date, 8640000000000000 ms; timestamps up to and including that
  bound are valid;
* `crypto.randomBytes`-based id generation is not modelled: the generated id is
  an explicit `freshId` argument used when the caller passes no (or an empty) id.
-/

/-- JS `x || d` for a numeric option: `undefined`, `null` and `0` are falsy. -/
def jsOrNat (x : Option Nat) (d : Nat) : Nat :=
  match x with
  | none => d
  | some v => if v = 0 then d else v

/-- JS `x || d` for a (possibly negative) numeric option. -/
def jsOrInt (x : Option Int) (d : Int) : Int :=
  match x with
  | none => d
  | some v => if v = 0 then d else v

/-- JS `x || d` for a string option: `undefined`, `null` and `""` are falsy. -/
def jsOrStr (x : Option String) (d : String) : String :=
  match x with
  | none => d
  | some s => if s = "" then d else s

/-- The session value passed to `set`: an opaque payload, the length of
`JSON.stringify(session)`, and the optional `createdAt` field that `set` reads
(`session.createdAt || now.toISOString()`; a present ISO string is never falsy,
so `none` stands for an absent/empty field). -/
structure Session where
  payload : Nat
  createdAt : Option Nat
  serializedSize : Nat
deriving Repr, DecidableEq

/-- The decorated session object that `set` stores inside an entry. -/
structure StoredSession where
  payload : Nat
  id : String
  createdAt : Nat
  updatedAt : Nat
  expiresAt : Nat
deriving Repr, DecidableEq

/-- One entry of the `sessions` map. -/
structure Entry where
  session : StoredSession
  expiresAt : Nat
  lastAccessed : Nat
deriving Repr, DecidableEq

/-- The metrics object of the store. -/
structure Metrics where
  hits : Nat
  misses : Nat
  sets : Nat
  deletes : Nat
  evictions : Nat
deriving Repr, DecidableEq

/-- Constructor options; `none` stands for an absent field. -/
structure StoreOptions where
  maxEntries : Option Int
  defaultTTLMs : Option Nat
  evictionPolicy : Option String
deriving Repr, DecidableEq

/-- The store state: configuration, the `sessions` map (association list in
insertion order, as a JS `Map` iterates) and the metrics. -/
structure SessionStore where
  maxEntries : Int
  defaultTTLMs : Nat
  evictionPolicy : String
  sessions : List (String × Entry)
  metrics : Metrics
deriving Repr, DecidableEq

/-- Result of a JS call that may throw: `ok` a value or `err` a message. -/
inductive JsResult (α : Type) where
  | ok (val : α)
  | err (msg : String)
deriving Repr, DecidableEq

/-- First entry with the given key, as `Map#get`. -/
def lookupKey : List (String × Entry) → String → Option Entry
  | [], _ => none
  | p :: rest, k => if p.1 = k then some p.2 else lookupKey rest k

/-- Membership test, as `Map#has`. -/
def hasKey (l : List (String × Entry)) (k : String) : Bool :=
  (lookupKey l k).isSome

/-- `Map#set`: replace in place when the key is present, append otherwise. -/
def assocSet : List (String × Entry) → String → Entry → List (String × Entry)
  | [], k, v => [(k, v)]
  | p :: rest, k, v => if p.1 = k then (k, v) :: rest else p :: assocSet rest k v

/-- `Map#delete`: remove the entry with the given key. -/
def eraseKey : List (String × Entry) → String → List (String × Entry)
  | [], _ => []
  | p :: rest, k => if p.1 = k then rest else p :: eraseKey rest k

/-- In-place mutation of the entry stored under a key. -/
def updateKey (l : List (String × Entry)) (k : String) (f : Entry → Entry) :
    List (String × Entry) :=
  l.map fun p => if p.1 = k then (p.1, f p.2) else p

/-- Milliseconds of the maximal representable JS date (`new Date(8640000000000000)`),
the initial sentinel of the ttl eviction scan. -/
def maxDateMs : Nat := 8640000000000000

/-- The `new SessionStore(options)` constructor: defaults for falsy options,
no validation of any kind, empty map, zeroed metrics. -/
def SessionStore.fromOptions (o : StoreOptions) : SessionStore :=
  { maxEntries := jsOrInt o.maxEntries 10000
    defaultTTLMs := jsOrNat o.defaultTTLMs 86400000
    evictionPolicy := jsOrStr o.evictionPolicy "lru"
    sessions := []
    metrics := ⟨0, 0, 0, 0, 0⟩ }

/-- The `get(id)` method.  An absent key is a miss; a present entry whose
`expiresAt` is strictly in the past is deleted through `del` (which increments
`deletes`) and counted as a miss; otherwise `lastAccessed` is refreshed, a hit
is counted and the session is returned.  (`entry.expiresAt` is always a
non-empty ISO string, so its JS truthiness test always passes.) -/
def SessionStore.get (st : SessionStore) (now : Nat) (id : String) :
    Option StoredSession × SessionStore :=
  match lookupKey st.sessions id with
  | none =>
    (none, { st with metrics := { st.metrics with misses := st.metrics.misses + 1 } })
  | some entry =>
    if entry.expiresAt < now then
      (none,
        { st with
          sessions := eraseKey st.sessions id
          metrics := { st.metrics with
            deletes := st.metrics.deletes + 1
            misses := st.metrics.misses + 1 } })
    else
      (some entry.session,
        { st with
          sessions := updateKey st.sessions id fun e => { e with lastAccessed := now }
          metrics := { st.metrics with hits := st.metrics.hits + 1 } })

/-- The lru scan of `_evict`: iterate in map order keeping the entry with the
strictly smallest `lastAccessed`; the initial `oldestAccess` is `Infinity`
(`none`), which every finite timestamp beats. -/
def findLRUAux : Option Nat → Option String → List (String × Entry) → Option String
  | _, victim, [] => victim
  | oldest, victim, (k, e) :: rest =>
    match oldest with
    | none => findLRUAux (some e.lastAccessed) (some k) rest
    | some b =>
      if e.lastAccessed < b then findLRUAux (some e.lastAccessed) (some k) rest
      else findLRUAux (some b) victim rest

/-- The ttl scan of `_evict`: iterate keeping the entry with the strictly
smallest `expiresAt`; the initial `soonestExpiry` is the maximal JS date. -/
def findTTLAux : Nat → Option String → List (String × Entry) → Option String
  | _, victim, [] => victim
  | soonest, victim, (k, e) :: rest =>
    if e.expiresAt < soonest then findTTLAux e.expiresAt (some k) rest
    else findTTLAux soonest victim rest

/-- Victim selection of `_evict`: an unrecognised policy selects nobody. -/
def SessionStore.evictVictim (st : SessionStore) : Option String :=
  if st.evictionPolicy = "lru" then findLRUAux none none st.sessions
  else if st.evictionPolicy = "ttl" then findTTLAux maxDateMs none st.sessions
  else none

/-- The `_evict()` method: return unchanged on an empty map or when no victim
is selected, otherwise delete the victim and count one eviction. -/
def SessionStore.evict (st : SessionStore) : SessionStore :=
  if st.sessions = [] then st
  else
    match st.evictVictim with
    | none => st
    | some vid =>
      { st with
        sessions := eraseKey st.sessions vid
        metrics := { st.metrics with evictions := st.metrics.evictions + 1 } }

/-- Resolution of the id argument of `set`: a falsy id (absent or empty) is
replaced by the freshly generated one (`if (!id) id = this.generateId()`). -/
def resolveId (id : Option String) (freshId : String) : String :=
  match id with
  | none => freshId
  | some s => if s = "" then freshId else s

/-- Body of `set(id, session, ttlMs)` once the id is resolved.  A falsy ttl is
replaced by the default; an oversize serialization throws before anything
changes; an insertion of a new key at capacity runs `_evict` first; building
the entry calls `expiresAt.toISOString()`, which throws a RangeError when the
computed expiry is beyond the maximal JS date (the eviction has already
happened at that point). -/
def SessionStore.setKeyed (st : SessionStore) (now : Nat) (key : String)
    (session : Session) (ttlMs : Option Nat) : JsResult String × SessionStore :=
  let ttl : Nat := jsOrNat ttlMs st.defaultTTLMs
  let expiresAt : Nat := now + ttl
  if session.serializedSize > 1024 * 1024 then
    (JsResult.err "Session size exceeds 1MB limit", st)
  else
    let st1 :=
      if hasKey st.sessions key = false ∧ st.maxEntries ≤ (st.sessions.length : Int)
      then st.evict else st
    if maxDateMs < expiresAt then
      (JsResult.err "Invalid time value", st1)
    else
      let stored : StoredSession :=
        { payload := session.payload
          id := key
          createdAt := session.createdAt.getD now
          updatedAt := now
          expiresAt := expiresAt }
      let entry : Entry := ⟨stored, expiresAt, now⟩
      (JsResult.ok key,
        { st1 with
          sessions := assocSet st1.sessions key entry
          metrics := { st1.metrics with sets := st1.metrics.sets + 1 } })

/-- The `set(id, session, ttlMs)` method. -/
def SessionStore.set (st : SessionStore) (now : Nat) (id : Option String)
    (freshId : String) (session : Session) (ttlMs : Option Nat) :
    JsResult String × SessionStore :=
  st.setKeyed now (resolveId id freshId) session ttlMs

/-- The `del(id)` method: remove the entry if present and count a delete only
on an actual removal. -/
def SessionStore.del (st : SessionStore) (id : String) : Bool × SessionStore :=
  if hasKey st.sessions id then
    (true,
      { st with
        sessions := eraseKey st.sessions id
        metrics := { st.metrics with deletes := st.metrics.deletes + 1 } })
  else (false, st)

/-- The `clear()` method: empty the map, metrics untouched. -/
def SessionStore.clear (st : SessionStore) : SessionStore :=
  { st with sessions := [] }

/-- The snapshot returned by `stats()`. -/
structure Stats where
  entryCount : Nat
  maxEntries : Int
  hits : Nat
  misses : Nat
  sets : Nat
  deletes : Nat
  evictions : Nat
  hitRate : ℚ
deriving Repr, DecidableEq

/-- The `stats()` method; `hits / (hits + misses) || 0` is `0` exactly when
both counters are zero (`0/0` is `NaN`, which is falsy). -/
def SessionStore.stats (st : SessionStore) : Stats :=
  { entryCount := st.sessions.length
    maxEntries := st.maxEntries
    hits := st.metrics.hits
    misses := st.metrics.misses
    sets := st.metrics.sets
    deletes := st.metrics.deletes
    evictions := st.metrics.evictions
    hitRate :=
      if st.metrics.hits + st.metrics.misses = 0 then 0
      else (st.metrics.hits : ℚ) / ((st.metrics.hits : ℚ) + (st.metrics.misses : ℚ)) }

/-- The `touch(id, ttlMs)` method: false for an absent key (with no expiry
check of any kind); otherwise the entry's expiry, the stored copies of
`expiresAt`/`updatedAt` and `lastAccessed` are refreshed in place.  The
`toISOString` call throws for an expiry beyond the maximal JS date, before any
mutation. -/
def SessionStore.touch (st : SessionStore) (now : Nat) (id : String)
    (ttlMs : Option Nat) : JsResult Bool × SessionStore :=
  match lookupKey st.sessions id with
  | none => (JsResult.ok false, st)
  | some _ =>
    let ttl : Nat := jsOrNat ttlMs st.defaultTTLMs
    let expiresAt : Nat := now + ttl
    if maxDateMs < expiresAt then (JsResult.err "Invalid time value", st)
    else
      (JsResult.ok true,
        { st with
          sessions := updateKey st.sessions id fun e =>
            { e with
              expiresAt := expiresAt
              session := { e.session with expiresAt := expiresAt, updatedAt := now }
              lastAccessed := now } })

/-- The `exists(id)` method: delegate to `get` and compare with `null`. -/
def SessionStore.exists' (st : SessionStore) (now : Nat) (id : String) :
    Bool × SessionStore :=
  let r := st.get now id
  (r.1.isSome, r.2)

/-- The `_cleanupExpired()` sweep: delete every entry whose expiry is strictly
in the past and add the count of removals to `evictions` (when nonzero). -/
def SessionStore.cleanupExpired (st : SessionStore) (now : Nat) : SessionStore :=
  let cleaned := (st.sessions.filter fun p => decide (p.2.expiresAt < now)).length
  { st with
    sessions := st.sessions.filter fun p => !decide (p.2.expiresAt < now)
    metrics :=
      if 0 < cleaned
      then { st.metrics with evictions := st.metrics.evictions + cleaned }
      else st.metrics }

/-- One externally triggerable operation on the store, with its wall-clock
time where the operation reads the clock. -/
inductive Op where
  | opSet (now : Nat) (id : Option String) (freshId : String)
      (session : Session) (ttlMs : Option Nat)
  | opGet (now : Nat) (id : String)
  | opDel (id : String)
  | opClear
  | opTouch (now : Nat) (id : String) (ttlMs : Option Nat)
  | opExists (now : Nat) (id : String)
  | opCleanup (now : Nat)
deriving Repr, DecidableEq

/-- State reached after one operation (results discarded; a thrown error
leaves exactly the state the method had mutated before throwing). -/
def stepOp (st : SessionStore) : Op → SessionStore
  | .opSet now id freshId session ttlMs => (st.set now id freshId session ttlMs).2
  | .opGet now id => (st.get now id).2
  | .opDel id => (st.del id).2
  | .opClear => st.clear
  | .opTouch now id ttlMs => (st.touch now id ttlMs).2
  | .opExists now id => (st.exists' now id).2
  | .opCleanup now => st.cleanupExpired now

/-- State reached after a sequence of operations. -/
def runOps (st : SessionStore) : List Op → SessionStore
  | [] => st
  | op :: rest => runOps (stepOp st op) rest

/-- Count of live entries at a given time: present and not strictly expired. -/
def liveEntries (st : SessionStore) (now : Nat) : Nat :=
  (st.sessions.filter fun p => !decide (p.2.expiresAt < now)).length

/-- Every stored entry expires strictly before the maximal JS date. -/
def entriesBounded (st : SessionStore) : Prop :=
  ∀ p ∈ st.sessions, p.2.expiresAt < maxDateMs

/-- The effective expiry an operation would write stays strictly below the
maximal JS date (`d` is the store's default ttl). -/
def opExpiryBounded (d : Nat) : Op → Prop
  | .opSet now _ _ _ ttlMs => now + jsOrNat ttlMs d < maxDateMs
  | .opTouch now _ ttlMs => now + jsOrNat ttlMs d < maxDateMs
  | _ => True

/-- The capacity invariant: the map never holds more than `maxEntries` entries,
and under the ttl policy every stored expiry is strictly below the scan's
initial sentinel (so a victim can always be found). -/
def CapInv (st : SessionStore) : Prop :=
  (st.sessions.length : Int) ≤ st.maxEntries ∧
  (st.evictionPolicy = "ttl" → entriesBounded st)

/-- The spec's concrete lru scenario: `maxEntries = 5`, insert `k0..k4`, read
`k1..k4` but not `k0`, then insert `k5`. -/
def lruScenarioOps : List Op :=
  [Op.opSet 0 (some "k0") "g" ⟨0, none, 1⟩ none,
   Op.opSet 1 (some "k1") "g" ⟨1, none, 1⟩ none,
   Op.opSet 2 (some "k2") "g" ⟨2, none, 1⟩ none,
   Op.opSet 3 (some "k3") "g" ⟨3, none, 1⟩ none,
   Op.opSet 4 (some "k4") "g" ⟨4, none, 1⟩ none,
   Op.opGet 5 "k1", Op.opGet 6 "k2", Op.opGet 7 "k3", Op.opGet 8 "k4",
   Op.opSet 9 (some "k5") "g" ⟨5, none, 1⟩ none]

/-- The state the lru scenario ends in. -/
def lruScenarioEnd : SessionStore :=
  runOps (SessionStore.fromOptions ⟨some 5, some 3600000, some "lru"⟩) lruScenarioOps

/-! ## Association-list lemmas -/

theorem lookupKey_none_of_hasKey_false {l : List (String × Entry)} {k : String}
    (h : hasKey l k = false) : lookupKey l k = none := by
  unfold hasKey at h
  cases hl : lookupKey l k with
  | none => rfl
  | some e => rw [hl] at h; simp at h

theorem mem_of_lookupKey {l : List (String × Entry)} {k : String} {e : Entry}
    (h : lookupKey l k = some e) : (k, e) ∈ l := by
  induction l with
  | nil => simp [lookupKey] at h
  | cons p rest ih =>
    unfold lookupKey at h
    split at h
    · rename_i hp
      cases h
      have hpe : (k, p.2) = p := by rw [← hp]
      rw [hpe]
      exact List.mem_cons_self p rest
    · exact List.mem_cons_of_mem p (ih h)

theorem eraseKey_length_le (l : List (String × Entry)) (k : String) :
    (eraseKey l k).length ≤ l.length := by
  induction l with
  | nil => simp [eraseKey]
  | cons p rest ih =>
    unfold eraseKey
    split
    · exact Nat.le_succ rest.length
    · simpa using Nat.succ_le_succ ih

theorem eraseKey_length_of_hasKey {l : List (String × Entry)} {k : String}
    (h : hasKey l k = true) : (eraseKey l k).length + 1 = l.length := by
  induction l with
  | nil => simp [hasKey, lookupKey] at h
  | cons p rest ih =>
    unfold hasKey lookupKey at h
    unfold eraseKey
    by_cases hp : p.1 = k
    · simp [hp]
    · simp only [if_neg hp] at h ⊢
      simpa using ih h

theorem mem_eraseKey {l : List (String × Entry)} {k : String} {p : String × Entry}
    (h : p ∈ eraseKey l k) : p ∈ l := by
  induction l with
  | nil => simp [eraseKey] at h
  | cons q rest ih =>
    unfold eraseKey at h
    split at h
    · exact List.mem_cons_of_mem q h
    · rcases List.mem_cons.mp h with h1 | h2
      · exact h1 ▸ List.mem_cons_self q rest
      · exact List.mem_cons_of_mem q (ih h2)

theorem lookupKey_eraseKey_none {l : List (String × Entry)} {k : String} (v : String)
    (h : lookupKey l k = none) : lookupKey (eraseKey l v) k = none := by
  induction l with
  | nil => simp [eraseKey, lookupKey]
  | cons p rest ih =>
    unfold lookupKey at h
    by_cases hp : p.1 = k
    · simp [hp] at h
    · rw [if_neg hp] at h
      unfold eraseKey
      by_cases hv : p.1 = v
      · rw [if_pos hv]; exact h
      · rw [if_neg hv]
        unfold lookupKey
        rw [if_neg hp]
        exact ih h

theorem hasKey_eraseKey_false {l : List (String × Entry)} {k v : String}
    (h : hasKey l k = false) : hasKey (eraseKey l v) k = false := by
  unfold hasKey
  rw [lookupKey_eraseKey_none v (lookupKey_none_of_hasKey_false h)]
  rfl

theorem assocSet_length_of_hasKey {l : List (String × Entry)} {k : String} (v : Entry)
    (h : hasKey l k = true) : (assocSet l k v).length = l.length := by
  induction l with
  | nil => simp [hasKey, lookupKey] at h
  | cons p rest ih =>
    unfold hasKey lookupKey at h
    unfold assocSet
    by_cases hp : p.1 = k
    · simp [hp]
    · simp only [if_neg hp] at h ⊢
      simpa using ih h

theorem assocSet_length_of_hasKey_false {l : List (String × Entry)} {k : String} (v : Entry)
    (h : hasKey l k = false) : (assocSet l k v).length = l.length + 1 := by
  induction l with
  | nil => simp [assocSet]
  | cons p rest ih =>
    unfold hasKey lookupKey at h
    by_cases hp : p.1 = k
    · simp [hp] at h
    · simp only [if_neg hp] at h
      unfold assocSet
      simp only [if_neg hp]
      simpa using ih h

theorem mem_assocSet {l : List (String × Entry)} {k : String} {v : Entry}
    {p : String × Entry} (h : p ∈ assocSet l k v) : p ∈ l ∨ p = (k, v) := by
  induction l with
  | nil =>
    right
    simpa [assocSet] using h
  | cons q rest ih =>
    unfold assocSet at h
    split at h
    · rcases List.mem_cons.mp h with h1 | h2
      · exact Or.inr h1
      · exact Or.inl (List.mem_cons_of_mem q h2)
    · rcases List.mem_cons.mp h with h1 | h2
      · exact Or.inl (h1 ▸ List.mem_cons_self q rest)
      · rcases ih h2 with h3 | h3
        · exact Or.inl (List.mem_cons_of_mem q h3)
        · exact Or.inr h3

theorem lookupKey_assocSet_self (l : List (String × Entry)) (k : String) (v : Entry) :
    lookupKey (assocSet l k v) k = some v := by
  induction l with
  | nil => simp [assocSet, lookupKey]
  | cons p rest ih =>
    unfold assocSet
    by_cases hp : p.1 = k
    · simp [hp, lookupKey]
    · simpa [lookupKey, if_neg hp] using ih

theorem updateKey_length (l : List (String × Entry)) (k : String) (f : Entry → Entry) :
    (updateKey l k f).length = l.length := by
  simp [updateKey]

theorem mem_updateKey {l : List (String × Entry)} {k : String} {f : Entry → Entry}
    {p : String × Entry} (h : p ∈ updateKey l k f) :
    ∃ q ∈ l, p = q ∨ p = (q.1, f q.2) := by
  unfold updateKey at h
  rcases List.mem_map.mp h with ⟨q, hq, hqe⟩
  refine ⟨q, hq, ?_⟩
  by_cases hk : q.1 = k
  · right; rw [← hqe, if_pos hk]
  · left; rw [← hqe, if_neg hk]

theorem lookupKey_updateKey {l : List (String × Entry)} {k : String} {e : Entry}
    (f : Entry → Entry) (h : lookupKey l k = some e) :
    lookupKey (updateKey l k f) k = some (f e) := by
  induction l with
  | nil => simp [lookupKey] at h
  | cons p rest ih =>
    unfold lookupKey at h
    unfold updateKey lookupKey
    by_cases hp : p.1 = k
    · rw [if_pos hp] at h
      cases h
      simp [hp]
    · rw [if_neg hp] at h
      simpa [if_neg hp, updateKey] using ih h

theorem hasKey_of_mem_keys {l : List (String × Entry)} {k : String}
    (h : k ∈ l.map Prod.fst) : hasKey l k = true := by
  induction l with
  | nil => simp at h
  | cons p rest ih =>
    unfold hasKey lookupKey
    by_cases hp : p.1 = k
    · simp [hp]
    · rw [if_neg hp]
      rw [List.map_cons] at h
      rcases List.mem_cons.mp h with h1 | h2
      · exact absurd h1.symm hp
      · exact ih h2

/-! ## Victim-selection lemmas -/

theorem findLRUAux_some (l : List (String × Entry)) (b : Nat) (kb : String) :
    ∃ k, findLRUAux (some b) (some kb) l = some k ∧ (k = kb ∨ k ∈ l.map Prod.fst) := by
  induction l generalizing b kb with
  | nil => exact ⟨kb, rfl, Or.inl rfl⟩
  | cons q rest ih =>
    obtain ⟨qk, qe⟩ := q
    by_cases hlt : qe.lastAccessed < b
    · obtain ⟨k, hk, hmem⟩ := ih qe.lastAccessed qk
      refine ⟨k, by simp [findLRUAux, if_pos hlt, hk], ?_⟩
      rcases hmem with h1 | h2
      · right; simp [h1]
      · right; simp [h2]
    · obtain ⟨k, hk, hmem⟩ := ih b kb
      refine ⟨k, by simp [findLRUAux, if_neg hlt, hk], ?_⟩
      rcases hmem with h1 | h2
      · exact Or.inl h1
      · right; simp [h2]

theorem findLRUAux_spec (l : List (String × Entry)) (b : Nat) (kb : String) :
    ((∀ p ∈ l, b ≤ p.2.lastAccessed) ∧ findLRUAux (some b) (some kb) l = some kb) ∨
    (∃ l1 k e l2, l = l1 ++ (k, e) :: l2 ∧
      findLRUAux (some b) (some kb) l = some k ∧
      e.lastAccessed < b ∧
      (∀ p ∈ l1, e.lastAccessed < p.2.lastAccessed) ∧
      (∀ p ∈ l2, e.lastAccessed ≤ p.2.lastAccessed)) := by
  induction l generalizing b kb with
  | nil => exact Or.inl ⟨by simp, rfl⟩
  | cons q rest ih =>
    obtain ⟨qk, qe⟩ := q
    by_cases hlt : qe.lastAccessed < b
    · rcases ih qe.lastAccessed qk with ⟨hall, heq⟩ | ⟨l1, k, e, l2, hsplit, heq, hb, hl1, hl2⟩
      · right
        exact ⟨[], qk, qe, rest, by simp, by simp [findLRUAux, if_pos hlt, heq], hlt,
          by simp, hall⟩
      · right
        refine ⟨(qk, qe) :: l1, k, e, l2, by simp [hsplit],
          by simp [findLRUAux, if_pos hlt, heq], lt_trans hb hlt, ?_, hl2⟩
        intro p hp
        rcases List.mem_cons.mp hp with h1 | h2
        · rw [h1]; exact hb
        · exact hl1 p h2
    · rcases ih b kb with ⟨hall, heq⟩ | ⟨l1, k, e, l2, hsplit, heq, hb, hl1, hl2⟩
      · left
        refine ⟨?_, by simp [findLRUAux, if_neg hlt, heq]⟩
        intro p hp
        rcases List.mem_cons.mp hp with h1 | h2
        · rw [h1]; exact Nat.le_of_not_lt hlt
        · exact hall p h2
      · right
        refine ⟨(qk, qe) :: l1, k, e, l2, by simp [hsplit],
          by simp [findLRUAux, if_neg hlt, heq], hb, ?_, hl2⟩
        intro p hp
        rcases List.mem_cons.mp hp with h1 | h2
        · rw [h1]; exact lt_of_lt_of_le hb (Nat.le_of_not_lt hlt)
        · exact hl1 p h2

theorem lruVictim_spec (l : List (String × Entry)) (hne : l ≠ []) :
    ∃ l1 k e l2, findLRUAux none none l = some k ∧ l = l1 ++ (k, e) :: l2 ∧
      (∀ p ∈ l1, e.lastAccessed < p.2.lastAccessed) ∧
      (∀ p ∈ l2, e.lastAccessed ≤ p.2.lastAccessed) := by
  cases l with
  | nil => exact absurd rfl hne
  | cons q rest =>
    obtain ⟨qk, qe⟩ := q
    have h0 : findLRUAux none none ((qk, qe) :: rest) =
        findLRUAux (some qe.lastAccessed) (some qk) rest := by
      simp [findLRUAux]
    rcases findLRUAux_spec rest qe.lastAccessed qk with ⟨hall, heq⟩ |
      ⟨l1, k, e, l2, hsplit, heq, hb, hl1, hl2⟩
    · exact ⟨[], qk, qe, rest, by rw [h0, heq], by simp, by simp, hall⟩
    · refine ⟨(qk, qe) :: l1, k, e, l2, by rw [h0, heq], by simp [hsplit], ?_, hl2⟩
      intro p hp
      rcases List.mem_cons.mp hp with h1 | h2
      · rw [h1]; exact hb
      · exact hl1 p h2

theorem lruVictim_mem (l : List (String × Entry)) (hne : l ≠ []) :
    ∃ k, findLRUAux none none l = some k ∧ k ∈ l.map Prod.fst := by
  obtain ⟨l1, k, e, l2, hfind, hsplit, _, _⟩ := lruVictim_spec l hne
  exact ⟨k, hfind, by simp [hsplit]⟩

theorem findTTLAux_some (l : List (String × Entry)) (b : Nat) (kb : String) :
    ∃ k, findTTLAux b (some kb) l = some k ∧ (k = kb ∨ k ∈ l.map Prod.fst) := by
  induction l generalizing b kb with
  | nil => exact ⟨kb, rfl, Or.inl rfl⟩
  | cons q rest ih =>
    obtain ⟨qk, qe⟩ := q
    by_cases hlt : qe.expiresAt < b
    · obtain ⟨k, hk, hmem⟩ := ih qe.expiresAt qk
      refine ⟨k, by simp [findTTLAux, if_pos hlt, hk], ?_⟩
      rcases hmem with h1 | h2
      · right; simp [h1]
      · right; simp [h2]
    · obtain ⟨k, hk, hmem⟩ := ih b kb
      refine ⟨k, by simp [findTTLAux, if_neg hlt, hk], ?_⟩
      rcases hmem with h1 | h2
      · exact Or.inl h1
      · right; simp [h2]

theorem ttlVictim_mem (l : List (String × Entry)) (b : Nat)
    (h : ∃ p ∈ l, p.2.expiresAt < b) :
    ∃ k, findTTLAux b none l = some k ∧ k ∈ l.map Prod.fst := by
  induction l generalizing b with
  | nil => simp at h
  | cons q rest ih =>
    obtain ⟨qk, qe⟩ := q
    by_cases hlt : qe.expiresAt < b
    · obtain ⟨k, hk, hmem⟩ := findTTLAux_some rest qe.expiresAt qk
      refine ⟨k, by simp [findTTLAux, if_pos hlt, hk], ?_⟩
      rcases hmem with h1 | h2
      · simp [h1]
      · simp [h2]
    · obtain ⟨p, hp, hpe⟩ := h
      rcases List.mem_cons.mp hp with h1 | h2
      · rw [h1] at hpe
        exact absurd hpe hlt
      · obtain ⟨k, hk, hmem⟩ := ih b ⟨p, h2, hpe⟩
        exact ⟨k, by simp [findTTLAux, if_neg hlt, hk], by simp [hmem]⟩

/-! ## Eviction and insertion lemmas -/

theorem evict_spec (st : SessionStore) (hne : st.sessions ≠ [])
    (hvic : st.evictionPolicy = "lru" ∨
      (st.evictionPolicy = "ttl" ∧ ∃ p ∈ st.sessions, p.2.expiresAt < maxDateMs)) :
    st.evict.sessions.length + 1 = st.sessions.length ∧
    st.evict.metrics.evictions = st.metrics.evictions + 1 ∧
    st.evict.metrics.sets = st.metrics.sets ∧
    (∀ p ∈ st.evict.sessions, p ∈ st.sessions) ∧
    (∀ k2, hasKey st.sessions k2 = false → hasKey st.evict.sessions k2 = false) ∧
    st.evict.maxEntries = st.maxEntries ∧
    st.evict.defaultTTLMs = st.defaultTTLMs ∧
    st.evict.evictionPolicy = st.evictionPolicy := by
  obtain ⟨vid, hvid, hmem⟩ :
      ∃ k, st.evictVictim = some k ∧ k ∈ st.sessions.map Prod.fst := by
    rcases hvic with hlru | ⟨httl, hex⟩
    · obtain ⟨k, hfind, hkm⟩ := lruVictim_mem st.sessions hne
      refine ⟨k, ?_, hkm⟩
      unfold SessionStore.evictVictim
      rw [hlru, if_pos rfl, hfind]
    · obtain ⟨k, hfind, hkm⟩ := ttlVictim_mem st.sessions maxDateMs hex
      refine ⟨k, ?_, hkm⟩
      unfold SessionStore.evictVictim
      rw [httl, if_neg (by decide), if_pos rfl, hfind]
  have hst : st.evict =
      { st with
        sessions := eraseKey st.sessions vid
        metrics := { st.metrics with evictions := st.metrics.evictions + 1 } } := by
    unfold SessionStore.evict
    rw [if_neg hne, hvid]
  rw [hst]
  refine ⟨?_, rfl, rfl, ?_, ?_, rfl, rfl, rfl⟩
  · exact eraseKey_length_of_hasKey (hasKey_of_mem_keys hmem)
  · exact fun p hp => mem_eraseKey hp
  · exact fun k2 h2 => hasKey_eraseKey_false h2

theorem set_resolve (st : SessionStore) (now : Nat) (k fid : String)
    (s : Session) (ttl : Option Nat) (hne : k ≠ "") :
    st.set now (some k) fid s ttl = st.setKeyed now k s ttl := by
  unfold SessionStore.set resolveId
  show st.setKeyed now (if k = "" then fid else k) s ttl = st.setKeyed now k s ttl
  rw [if_neg hne]

theorem setKeyed_present_key (st : SessionStore) (now : Nat) (k : String)
    (s : Session) (ttl : Option Nat) (hk : hasKey st.sessions k = true) :
    (st.setKeyed now k s ttl).2.metrics.evictions = st.metrics.evictions ∧
    (st.setKeyed now k s ttl).2.sessions.length = st.sessions.length := by
  unfold SessionStore.setKeyed
  by_cases hsz : s.serializedSize > 1024 * 1024
  · rw [if_pos hsz]
    exact ⟨rfl, rfl⟩
  · rw [if_neg hsz]
    have hcond : ¬(hasKey st.sessions k = false ∧
        st.maxEntries ≤ (st.sessions.length : Int)) := by
      intro hc
      rw [hk] at hc
      exact absurd hc.1 (by simp)
    rw [if_neg hcond]
    by_cases hdt : maxDateMs < now + jsOrNat ttl st.defaultTTLMs
    · rw [if_pos hdt]
      exact ⟨rfl, rfl⟩
    · rw [if_neg hdt]
      exact ⟨rfl, assocSet_length_of_hasKey _ hk⟩

theorem evict_config (st : SessionStore) :
    st.evict.maxEntries = st.maxEntries ∧ st.evict.defaultTTLMs = st.defaultTTLMs ∧
    st.evict.evictionPolicy = st.evictionPolicy := by
  unfold SessionStore.evict
  by_cases h : st.sessions = []
  · rw [if_pos h]
    exact ⟨rfl, rfl, rfl⟩
  · rw [if_neg h]
    cases st.evictVictim with
    | none => exact ⟨rfl, rfl, rfl⟩
    | some vid => exact ⟨rfl, rfl, rfl⟩

theorem evict_le (st : SessionStore) :
    st.evict.sessions.length ≤ st.sessions.length ∧
    (∀ p ∈ st.evict.sessions, p ∈ st.sessions) := by
  unfold SessionStore.evict
  by_cases h : st.sessions = []
  · rw [if_pos h]
    exact ⟨le_refl _, fun p hp => hp⟩
  · rw [if_neg h]
    cases st.evictVictim with
    | none => exact ⟨le_refl _, fun p hp => hp⟩
    | some vid => exact ⟨eraseKey_length_le _ _, fun p hp => mem_eraseKey hp⟩

theorem setKeyed_over_capacity (st : SessionStore) (now : Nat) (k : String)
    (s : Session) (ttl : Option Nat)
    (hvic : st.evictionPolicy = "lru" ∨ (st.evictionPolicy = "ttl" ∧ entriesBounded st))
    (hmax : 1 ≤ st.maxEntries)
    (hk : hasKey st.sessions k = false)
    (hcap : st.maxEntries ≤ (st.sessions.length : Int))
    (hsz : s.serializedSize ≤ 1024 * 1024)
    (hdt : now + jsOrNat ttl st.defaultTTLMs ≤ maxDateMs) :
    (st.setKeyed now k s ttl).1 = JsResult.ok k ∧
    (st.setKeyed now k s ttl).2.metrics.evictions = st.metrics.evictions + 1 ∧
    (st.setKeyed now k s ttl).2.sessions.length = st.sessions.length := by
  have hlen0 : st.sessions ≠ [] := by
    intro h
    rw [h] at hcap
    simp at hcap
    omega
  have hvic' : st.evictionPolicy = "lru" ∨
      (st.evictionPolicy = "ttl" ∧ ∃ p ∈ st.sessions, p.2.expiresAt < maxDateMs) := by
    rcases hvic with h | ⟨h1, h2⟩
    · exact Or.inl h
    · obtain ⟨p, hp⟩ := List.exists_mem_of_ne_nil st.sessions hlen0
      exact Or.inr ⟨h1, ⟨p, hp, h2 p hp⟩⟩
  obtain ⟨hl1, hev, hsets, hsub, hhk, _, _, _⟩ := evict_spec st hlen0 hvic'
  unfold SessionStore.setKeyed
  rw [if_neg (by omega : ¬ s.serializedSize > 1024 * 1024)]
  rw [if_neg (by omega : ¬ maxDateMs < now + jsOrNat ttl st.defaultTTLMs)]
  rw [if_pos ⟨hk, hcap⟩]
  refine ⟨rfl, by simpa using hev, ?_⟩
  simp only [assocSet_length_of_hasKey_false _ (hhk k hk)]
  omega

theorem setKeyed_ok_lookup (st : SessionStore) (now : Nat) (k : String) (s : Session)
    (ttl : Option Nat) (hsz : s.serializedSize ≤ 1024 * 1024)
    (hdt : now + jsOrNat ttl st.defaultTTLMs ≤ maxDateMs) :
    (st.setKeyed now k s ttl).1 = JsResult.ok k ∧
    lookupKey (st.setKeyed now k s ttl).2.sessions k =
      some ⟨⟨s.payload, k, s.createdAt.getD now, now, now + jsOrNat ttl st.defaultTTLMs⟩,
        now + jsOrNat ttl st.defaultTTLMs, now⟩ := by
  unfold SessionStore.setKeyed
  rw [if_neg (by omega : ¬ s.serializedSize > 1024 * 1024)]
  rw [if_neg (by omega : ¬ maxDateMs < now + jsOrNat ttl st.defaultTTLMs)]
  exact ⟨rfl, lookupKey_assocSet_self _ _ _⟩

/-! ## Configuration preservation -/

theorem get_config (st : SessionStore) (now : Nat) (id : String) :
    (st.get now id).2.maxEntries = st.maxEntries ∧
    (st.get now id).2.defaultTTLMs = st.defaultTTLMs ∧
    (st.get now id).2.evictionPolicy = st.evictionPolicy := by
  unfold SessionStore.get
  split
  · exact ⟨rfl, rfl, rfl⟩
  · split
    · exact ⟨rfl, rfl, rfl⟩
    · exact ⟨rfl, rfl, rfl⟩

theorem setKeyed_config (st : SessionStore) (now : Nat) (k : String) (s : Session)
    (ttl : Option Nat) :
    (st.setKeyed now k s ttl).2.maxEntries = st.maxEntries ∧
    (st.setKeyed now k s ttl).2.defaultTTLMs = st.defaultTTLMs ∧
    (st.setKeyed now k s ttl).2.evictionPolicy = st.evictionPolicy := by
  obtain ⟨h1, h2, h3⟩ := evict_config st
  unfold SessionStore.setKeyed
  by_cases hsz : s.serializedSize > 1024 * 1024
  · rw [if_pos hsz]
    exact ⟨rfl, rfl, rfl⟩
  · rw [if_neg hsz]
    by_cases hdt : maxDateMs < now + jsOrNat ttl st.defaultTTLMs
    · rw [if_pos hdt]
      by_cases hc : hasKey st.sessions k = false ∧
          st.maxEntries ≤ (st.sessions.length : Int)
      · rw [if_pos hc]
        exact ⟨h1, h2, h3⟩
      · rw [if_neg hc]
        exact ⟨rfl, rfl, rfl⟩
    · rw [if_neg hdt]
      by_cases hc : hasKey st.sessions k = false ∧
          st.maxEntries ≤ (st.sessions.length : Int)
      · rw [if_pos hc]
        exact ⟨h1, h2, h3⟩
      · rw [if_neg hc]
        exact ⟨rfl, rfl, rfl⟩

theorem touch_config (st : SessionStore) (now : Nat) (id : String) (ttl : Option Nat) :
    (st.touch now id ttl).2.maxEntries = st.maxEntries ∧
    (st.touch now id ttl).2.defaultTTLMs = st.defaultTTLMs ∧
    (st.touch now id ttl).2.evictionPolicy = st.evictionPolicy := by
  unfold SessionStore.touch
  split
  · exact ⟨rfl, rfl, rfl⟩
  · dsimp only
    split
    · exact ⟨rfl, rfl, rfl⟩
    · exact ⟨rfl, rfl, rfl⟩

theorem del_config (st : SessionStore) (id : String) :
    (st.del id).2.maxEntries = st.maxEntries ∧
    (st.del id).2.defaultTTLMs = st.defaultTTLMs ∧
    (st.del id).2.evictionPolicy = st.evictionPolicy := by
  unfold SessionStore.del
  by_cases h : hasKey st.sessions id = true
  · rw [if_pos h]
    exact ⟨rfl, rfl, rfl⟩
  · rw [if_neg h]
    exact ⟨rfl, rfl, rfl⟩

theorem stepOp_config (st : SessionStore) (op : Op) :
    (stepOp st op).maxEntries = st.maxEntries ∧
    (stepOp st op).defaultTTLMs = st.defaultTTLMs ∧
    (stepOp st op).evictionPolicy = st.evictionPolicy := by
  cases op with
  | opSet now id fid s ttl => exact setKeyed_config st now (resolveId id fid) s ttl
  | opGet now id => exact get_config st now id
  | opDel id => exact del_config st id
  | opClear => exact ⟨rfl, rfl, rfl⟩
  | opTouch now id ttl => exact touch_config st now id ttl
  | opExists now id => exact get_config st now id
  | opCleanup now => exact ⟨rfl, rfl, rfl⟩

/-! ## Preservation of the capacity invariant -/

theorem get_capInv (st : SessionStore) (now : Nat) (id : String) (hinv : CapInv st) :
    CapInv (st.get now id).2 := by
  obtain ⟨hlen, hbnd⟩ := hinv
  unfold SessionStore.get
  split
  · exact ⟨hlen, hbnd⟩
  · split
    · refine ⟨?_, ?_⟩
      · dsimp only
        have := eraseKey_length_le st.sessions id
        omega
      · intro httl p hp
        dsimp only at httl hp
        exact hbnd httl p (mem_eraseKey hp)
    · refine ⟨?_, ?_⟩
      · dsimp only
        rw [updateKey_length]
        exact hlen
      · intro httl p hp
        dsimp only at httl hp
        obtain ⟨q, hq, hpq⟩ := mem_updateKey hp
        rcases hpq with h1 | h1
        · exact h1 ▸ hbnd httl q hq
        · rw [h1]
          simpa using hbnd httl q hq

theorem setKeyed_capInv (st : SessionStore) (now : Nat) (k : String) (s : Session)
    (ttl : Option Nat)
    (hpol : st.evictionPolicy = "lru" ∨ st.evictionPolicy = "ttl")
    (hmax : 1 ≤ st.maxEntries) (hinv : CapInv st)
    (hb : st.evictionPolicy = "ttl" → now + jsOrNat ttl st.defaultTTLMs < maxDateMs) :
    CapInv (st.setKeyed now k s ttl).2 := by
  obtain ⟨hlen, hbnd⟩ := hinv
  obtain ⟨hm1, hm2, hm3⟩ := evict_config st
  obtain ⟨hel, hesub⟩ := evict_le st
  unfold SessionStore.setKeyed
  by_cases hsz : s.serializedSize > 1024 * 1024
  · rw [if_pos hsz]
    exact ⟨hlen, hbnd⟩
  · rw [if_neg hsz]
    by_cases hdt : maxDateMs < now + jsOrNat ttl st.defaultTTLMs
    · rw [if_pos hdt]
      by_cases hc : hasKey st.sessions k = false ∧
          st.maxEntries ≤ (st.sessions.length : Int)
      · rw [if_pos hc]
        refine ⟨?_, ?_⟩
        · dsimp only
          rw [hm1]
          omega
        · intro httl p hp
          dsimp only at httl hp
          rw [hm3] at httl
          exact hbnd httl p (hesub p hp)
      · rw [if_neg hc]
        exact ⟨hlen, hbnd⟩
    · rw [if_neg hdt]
      by_cases hc : hasKey st.sessions k = false ∧
          st.maxEntries ≤ (st.sessions.length : Int)
      · rw [if_pos hc]
        obtain ⟨hk, hcap⟩ := hc
        have hne : st.sessions ≠ [] := by
          intro h
          rw [h] at hcap
          simp at hcap
          omega
        have hvic' : st.evictionPolicy = "lru" ∨
            (st.evictionPolicy = "ttl" ∧ ∃ p ∈ st.sessions, p.2.expiresAt < maxDateMs) := by
          rcases hpol with h | h
          · exact Or.inl h
          · obtain ⟨p, hp⟩ := List.exists_mem_of_ne_nil st.sessions hne
            exact Or.inr ⟨h, ⟨p, hp, hbnd h p hp⟩⟩
        obtain ⟨hl1, _, _, hsub, hhk, _, _, _⟩ := evict_spec st hne hvic'
        refine ⟨?_, ?_⟩
        · dsimp only
          rw [assocSet_length_of_hasKey_false _ (hhk k hk), hm1]
          omega
        · intro httl p hp
          dsimp only at httl hp
          rw [hm3] at httl
          rcases mem_assocSet hp with h1 | h1
          · exact hbnd httl p (hsub p h1)
          · rw [h1]
            simpa using hb httl
      · rw [if_neg hc]
        refine ⟨?_, ?_⟩
        · dsimp only
          by_cases hk : hasKey st.sessions k = true
          · rw [assocSet_length_of_hasKey _ hk]
            exact hlen
          · have hk' : hasKey st.sessions k = false := by
              revert hk
              cases hasKey st.sessions k <;> simp
            have hcap' : ¬ st.maxEntries ≤ (st.sessions.length : Int) := fun h => hc ⟨hk', h⟩
            rw [assocSet_length_of_hasKey_false _ hk']
            push_cast
            omega
        · intro httl p hp
          dsimp only at httl hp
          rcases mem_assocSet hp with h1 | h1
          · exact hbnd httl p h1
          · rw [h1]
            simpa using hb httl

theorem touch_capInv (st : SessionStore) (now : Nat) (id : String) (ttl : Option Nat)
    (hinv : CapInv st)
    (hb : st.evictionPolicy = "ttl" → now + jsOrNat ttl st.defaultTTLMs < maxDateMs) :
    CapInv (st.touch now id ttl).2 := by
  obtain ⟨hlen, hbnd⟩ := hinv
  unfold SessionStore.touch
  split
  · exact ⟨hlen, hbnd⟩
  · dsimp only
    split
    · exact ⟨hlen, hbnd⟩
    · refine ⟨?_, ?_⟩
      · dsimp only
        rw [updateKey_length]
        exact hlen
      · intro httl p hp
        dsimp only at httl hp
        obtain ⟨q, hq, hpq⟩ := mem_updateKey hp
        rcases hpq with h1 | h1
        · exact h1 ▸ hbnd httl q hq
        · rw [h1]
          simpa using hb httl

theorem del_capInv (st : SessionStore) (id : String) (hinv : CapInv st) :
    CapInv (st.del id).2 := by
  obtain ⟨hlen, hbnd⟩ := hinv
  unfold SessionStore.del
  by_cases h : hasKey st.sessions id = true
  · rw [if_pos h]
    refine ⟨?_, ?_⟩
    · dsimp only
      have := eraseKey_length_le st.sessions id
      omega
    · intro httl p hp
      exact hbnd httl p (mem_eraseKey hp)
  · rw [if_neg h]
    exact ⟨hlen, hbnd⟩

theorem clear_capInv (st : SessionStore) (hmax : 1 ≤ st.maxEntries) :
    CapInv st.clear := by
  refine ⟨?_, ?_⟩
  · dsimp [SessionStore.clear]
    omega
  · intro _ p hp
    simp [SessionStore.clear] at hp

theorem cleanup_capInv (st : SessionStore) (now : Nat) (hinv : CapInv st) :
    CapInv (st.cleanupExpired now) := by
  obtain ⟨hlen, hbnd⟩ := hinv
  refine ⟨?_, ?_⟩
  · unfold SessionStore.cleanupExpired
    dsimp only
    have := List.length_filter_le (fun p => !decide (p.2.expiresAt < now)) st.sessions
    omega
  · intro httl p hp
    unfold SessionStore.cleanupExpired at httl hp
    dsimp only at httl hp
    exact hbnd httl p (List.mem_filter.mp hp).1

theorem stepOp_capInv (st : SessionStore) (op : Op)
    (hpol : st.evictionPolicy = "lru" ∨ st.evictionPolicy = "ttl")
    (hmax : 1 ≤ st.maxEntries) (hinv : CapInv st)
    (hop : st.evictionPolicy = "ttl" → opExpiryBounded st.defaultTTLMs op) :
    CapInv (stepOp st op) := by
  cases op with
  | opSet now id fid s ttl =>
    exact setKeyed_capInv st now (resolveId id fid) s ttl hpol hmax hinv fun h => hop h
  | opGet now id => exact get_capInv st now id hinv
  | opDel id => exact del_capInv st id hinv
  | opClear => exact clear_capInv st hmax
  | opTouch now id ttl => exact touch_capInv st now id ttl hinv fun h => hop h
  | opExists now id => exact get_capInv st now id hinv
  | opCleanup now => exact cleanup_capInv st now hinv

theorem runOps_capInv (ops : List Op) (st : SessionStore)
    (hpol : st.evictionPolicy = "lru" ∨ st.evictionPolicy = "ttl")
    (hmax : 1 ≤ st.maxEntries) (hinv : CapInv st)
    (hops : st.evictionPolicy = "ttl" →
      ∀ op ∈ ops, opExpiryBounded st.defaultTTLMs op) :
    CapInv (runOps st ops) := by
  induction ops generalizing st with
  | nil => exact hinv
  | cons op rest ih =>
    obtain ⟨hc1, hc2, hc3⟩ := stepOp_config st op
    show CapInv (runOps (stepOp st op) rest)
    apply ih (stepOp st op)
    · rw [hc3]
      exact hpol
    · rw [hc1]
      exact hmax
    · exact stepOp_capInv st op hpol hmax hinv fun h => hops h op (List.mem_cons_self op rest)
    · intro h op' hop'
      rw [hc2]
      rw [hc3] at h
      exact hops h op' (List.mem_cons_of_mem op hop')

/-! ## Characterization of the individual operations -/

theorem get_absent_spec (st : SessionStore) (now : Nat) (k : String)
    (hl : lookupKey st.sessions k = none) :
    st.get now k =
      (none, { st with metrics := { st.metrics with misses := st.metrics.misses + 1 } }) := by
  unfold SessionStore.get
  rw [hl]

theorem get_expired_spec (st : SessionStore) (now : Nat) (k : String) (e : Entry)
    (hl : lookupKey st.sessions k = some e) (hexp : e.expiresAt < now) :
    st.get now k =
      (none,
        { st with
          sessions := eraseKey st.sessions k
          metrics := { st.metrics with
            deletes := st.metrics.deletes + 1
            misses := st.metrics.misses + 1 } }) := by
  unfold SessionStore.get
  rw [hl]
  dsimp only
  rw [if_pos hexp]

theorem get_live_spec (st : SessionStore) (now : Nat) (k : String) (e : Entry)
    (hl : lookupKey st.sessions k = some e) (hexp : ¬ e.expiresAt < now) :
    st.get now k =
      (some e.session,
        { st with
          sessions := updateKey st.sessions k fun x => { x with lastAccessed := now }
          metrics := { st.metrics with hits := st.metrics.hits + 1 } }) := by
  unfold SessionStore.get
  rw [hl]
  dsimp only
  rw [if_neg hexp]

theorem touch_absent_spec (st : SessionStore) (now : Nat) (k : String) (ttl : Option Nat)
    (hl : lookupKey st.sessions k = none) :
    st.touch now k ttl = (JsResult.ok false, st) := by
  unfold SessionStore.touch
  rw [hl]

theorem touch_present_spec (st : SessionStore) (now : Nat) (k : String) (e : Entry)
    (ttl : Option Nat) (hl : lookupKey st.sessions k = some e)
    (hdt : now + jsOrNat ttl st.defaultTTLMs ≤ maxDateMs) :
    st.touch now k ttl =
      (JsResult.ok true,
        { st with
          sessions := updateKey st.sessions k fun x =>
            { x with
              expiresAt := now + jsOrNat ttl st.defaultTTLMs
              session := { x.session with
                expiresAt := now + jsOrNat ttl st.defaultTTLMs
                updatedAt := now }
              lastAccessed := now } }) := by
  unfold SessionStore.touch
  rw [hl]
  dsimp only
  rw [if_neg (by omega : ¬ maxDateMs < now + jsOrNat ttl st.defaultTTLMs)]

theorem cleanup_spec (st : SessionStore) (now : Nat) :
    (st.cleanupExpired now).sessions =
      st.sessions.filter (fun p => !decide (p.2.expiresAt < now)) ∧
    (st.cleanupExpired now).metrics.deletes = st.metrics.deletes ∧
    (st.cleanupExpired now).metrics.evictions =
      st.metrics.evictions +
        (st.sessions.filter fun p => decide (p.2.expiresAt < now)).length := by
  unfold SessionStore.cleanupExpired
  refine ⟨rfl, ?_, ?_⟩
  · dsimp only
    split
    · rfl
    · rfl
  · dsimp only
    split
    · rfl
    · rename_i h
      have : (st.sessions.filter fun p => decide (p.2.expiresAt < now)).length = 0 := by
        omega
      omega

theorem setKeyed_oversize (st : SessionStore) (now : Nat) (k : String) (s : Session)
    (ttl : Option Nat) (hsz : 1024 * 1024 < s.serializedSize) :
    st.setKeyed now k s ttl = (JsResult.err "Session size exceeds 1MB limit", st) := by
  unfold SessionStore.setKeyed
  rw [if_pos (by omega : s.serializedSize > 1024 * 1024)]

theorem evict_unknown_policy (st : SessionStore) (h1 : st.evictionPolicy ≠ "lru")
    (h2 : st.evictionPolicy ≠ "ttl") : st.evict = st := by
  unfold SessionStore.evict
  by_cases h : st.sessions = []
  · rw [if_pos h]
  · rw [if_neg h]
    have hv : st.evictVictim = none := by
      unfold SessionStore.evictVictim
      rw [if_neg h1, if_neg h2]
    rw [hv]

theorem runOps_config (ops : List Op) (st : SessionStore) :
    (runOps st ops).maxEntries = st.maxEntries ∧
    (runOps st ops).defaultTTLMs = st.defaultTTLMs ∧
    (runOps st ops).evictionPolicy = st.evictionPolicy := by
  induction ops generalizing st with
  | nil => exact ⟨rfl, rfl, rfl⟩
  | cons op rest ih =>
    obtain ⟨h1, h2, h3⟩ := stepOp_config st op
    obtain ⟨g1, g2, g3⟩ := ih (stepOp st op)
    exact ⟨g1.trans h1, g2.trans h2, g3.trans h3⟩

/-! ## Claim theorems -/

/-- C8: `clear()` removes every entry unconditionally and bypasses the
per-entry metrics increments: afterwards `stats()` reports `entryCount = 0`
whatever the prior size, while the hits, misses, sets, deletes and evictions
counters are exactly what they were before the call. -/
theorem clear_bypasses_metrics (st : SessionStore) :
    st.clear.sessions = [] ∧
    st.clear.stats.entryCount = 0 ∧
    st.clear.stats.hits = st.stats.hits ∧
    st.clear.stats.misses = st.stats.misses ∧
    st.clear.stats.sets = st.stats.sets ∧
    st.clear.stats.deletes = st.stats.deletes ∧
    st.clear.stats.evictions = st.stats.evictions ∧
    st.clear.metrics = st.metrics :=
  ⟨rfl, rfl, rfl, rfl, rfl, rfl, rfl, rfl⟩

/-- C6 counterexample: constructing a store with `maxEntries = -1` (not a
positive integer) and the unsupported eviction policy `"fifo"` is NOT
rejected: a fully-formed store is produced carrying the invalid configuration
verbatim, and it even accepts subsequent operations. -/
theorem constructor_no_validation_cex :
    SessionStore.fromOptions ⟨some (-1), none, some "fifo"⟩ =
      { maxEntries := -1, defaultTTLMs := 86400000, evictionPolicy := "fifo",
        sessions := [], metrics := ⟨0, 0, 0, 0, 0⟩ } ∧
    ((SessionStore.fromOptions ⟨some (-1), none, some "fifo"⟩).set 0 (some "a") "g"
      ⟨1, none, 1⟩ (some 10)).1 = JsResult.ok "a" ∧
    ((SessionStore.fromOptions ⟨some (-1), none, some "fifo"⟩).set 0 (some "a") "g"
      ⟨1, none, 1⟩ (some 10)).2.sessions.length = 1 := by
  decide

/-- C6 (amended): the constructor performs no validation at all.  Every
options object produces a fully-constructed store: falsy fields are replaced
by the defaults (10000 entries, 24 hours, lru) and any other value — including
a negative `maxEntries` or an unsupported `evictionPolicy` — is stored
verbatim, with an empty map and zeroed metrics.  A store carrying an
unsupported policy is silently degraded: `_evict` never selects a victim and
removes nothing. -/
theorem constructor_no_validation_amended :
    (∀ o : StoreOptions,
      (SessionStore.fromOptions o).maxEntries = jsOrInt o.maxEntries 10000 ∧
      (SessionStore.fromOptions o).defaultTTLMs = jsOrNat o.defaultTTLMs 86400000 ∧
      (SessionStore.fromOptions o).evictionPolicy = jsOrStr o.evictionPolicy "lru" ∧
      (SessionStore.fromOptions o).sessions = [] ∧
      (SessionStore.fromOptions o).metrics = ⟨0, 0, 0, 0, 0⟩) ∧
    (∀ st : SessionStore, st.evictionPolicy ≠ "lru" → st.evictionPolicy ≠ "ttl" →
      st.evict = st) :=
  ⟨fun _ => ⟨rfl, rfl, rfl, rfl, rfl⟩, fun st h1 h2 => evict_unknown_policy st h1 h2⟩

/-- C2: when the serialized value exceeds the 1 MiB ceiling, `set` throws
`Session size exceeds 1MB limit` synchronously and the store — entries and
every metrics counter — is exactly as before the call; in particular
`exists(k)` is still false afterwards for any key that was absent before. -/
theorem sizeLimit_rejected (st : SessionStore) (now : Nat) (id : Option String)
    (fid : String) (s : Session) (ttl : Option Nat)
    (hsz : 1024 * 1024 < s.serializedSize) :
    (st.set now id fid s ttl).1 = JsResult.err "Session size exceeds 1MB limit" ∧
    (st.set now id fid s ttl).2 = st ∧
    (∀ now2 k2, hasKey st.sessions k2 = false →
      ((st.set now id fid s ttl).2.exists' now2 k2).1 = false) := by
  have hset : st.set now id fid s ttl =
      (JsResult.err "Session size exceeds 1MB limit", st) :=
    setKeyed_oversize st now (resolveId id fid) s ttl hsz
  refine ⟨by rw [hset], by rw [hset], ?_⟩
  intro now2 k2 hk2
  rw [hset]
  unfold SessionStore.exists'
  rw [get_absent_spec st now2 k2 (lookupKey_none_of_hasKey_false hk2)]
  rfl

/-- C2 witness: a 1 MiB + 1 byte value on a fresh store is rejected with the
store unchanged. -/
theorem sizeLimit_rejected_witness :
    ((SessionStore.fromOptions ⟨some 5, some 1000, none⟩).set 0 (some "a") "g"
        ⟨0, none, 1048577⟩ none).1 = JsResult.err "Session size exceeds 1MB limit" ∧
    ((SessionStore.fromOptions ⟨some 5, some 1000, none⟩).set 0 (some "a") "g"
        ⟨0, none, 1048577⟩ none).2 = SessionStore.fromOptions ⟨some 5, some 1000, none⟩ :=
  ⟨(sizeLimit_rejected (SessionStore.fromOptions ⟨some 5, some 1000, none⟩) 0 (some "a")
      "g" ⟨0, none, 1048577⟩ none (by decide)).1,
    (sizeLimit_rejected (SessionStore.fromOptions ⟨some 5, some 1000, none⟩) 0 (some "a")
      "g" ⟨0, none, 1048577⟩ none (by decide)).2.1⟩

/-- C4 counterexample: the entry under `"a"` expires at 100, yet `touch` at
time 200 — when the entry is already expired — returns true (the claim says it
must return false), and the touched entry is even retrievable again at time
220. -/
theorem touch_expired_cex :
    lookupKey ((SessionStore.fromOptions ⟨some 5, some 1000, none⟩).set 0 (some "a") "g"
        ⟨7, none, 10⟩ (some 100)).2.sessions "a" =
      some ⟨⟨7, "a", 0, 0, 100⟩, 100, 0⟩ ∧
    (((SessionStore.fromOptions ⟨some 5, some 1000, none⟩).set 0 (some "a") "g"
        ⟨7, none, 10⟩ (some 100)).2.touch 200 "a" (some 50)).1 = JsResult.ok true ∧
    ((((SessionStore.fromOptions ⟨some 5, some 1000, none⟩).set 0 (some "a") "g"
        ⟨7, none, 10⟩ (some 100)).2.touch 200 "a" (some 50)).2.get 220 "a").1 =
      some ⟨7, "a", 0, 200, 250⟩ := by
  decide

/-- C4 (amended): `touch(k, ttl)` returns false only when the key is absent;
it performs no expiry check of any kind.  When the entry is present — even
one already expired at the time of the call — `touch` extends `expiresAt` to
`now + ttl` (or the store default), refreshes the stored copies of
`expiresAt`/`updatedAt` and `lastAccessed`, leaves the value (payload,
createdAt) untouched, leaves every metric unchanged, and returns true. -/
theorem touch_amended (st : SessionStore) (now : Nat) (k : String) (ttl : Option Nat) :
    (lookupKey st.sessions k = none → st.touch now k ttl = (JsResult.ok false, st)) ∧
    (∀ e, lookupKey st.sessions k = some e →
      now + jsOrNat ttl st.defaultTTLMs ≤ maxDateMs →
      (st.touch now k ttl).1 = JsResult.ok true ∧
      lookupKey (st.touch now k ttl).2.sessions k =
        some ⟨⟨e.session.payload, e.session.id, e.session.createdAt, now,
          now + jsOrNat ttl st.defaultTTLMs⟩,
          now + jsOrNat ttl st.defaultTTLMs, now⟩ ∧
      (st.touch now k ttl).2.metrics = st.metrics) := by
  constructor
  · exact fun hl => touch_absent_spec st now k ttl hl
  · intro e hl hdt
    rw [touch_present_spec st now k e ttl hl hdt]
    refine ⟨rfl, ?_, rfl⟩
    have hup := lookupKey_updateKey (fun x : Entry =>
      { x with
        expiresAt := now + jsOrNat ttl st.defaultTTLMs
        session := { x.session with
          expiresAt := now + jsOrNat ttl st.defaultTTLMs
          updatedAt := now }
        lastAccessed := now }) hl
    exact hup

/-- C7 counterexample: the key `"a"` holds a live entry created at time 0
(`createdAt = 0`); a second `set` on the same key at time 5 whose value does
not carry a `createdAt` field yields a stored entry with `createdAt = 5` —
the original `createdAt` is NOT preserved. -/
theorem set_createdAt_cex :
    lookupKey ((SessionStore.fromOptions ⟨some 5, some 1000, none⟩).set 0 (some "a") "g"
        ⟨7, none, 10⟩ (some 100)).2.sessions "a" =
      some ⟨⟨7, "a", 0, 0, 100⟩, 100, 0⟩ ∧
    lookupKey (((SessionStore.fromOptions ⟨some 5, some 1000, none⟩).set 0 (some "a") "g"
        ⟨7, none, 10⟩ (some 100)).2.set 5 (some "a") "g" ⟨8, none, 10⟩
        (some 100)).2.sessions "a" =
      some ⟨⟨8, "a", 5, 5, 105⟩, 105, 5⟩ := by
  decide

/-- C7 (amended): a successful `set` on a key stores an entry whose
`createdAt` is the caller-supplied `session.createdAt` when present and the
time of this very `set` otherwise — independently of any entry previously
stored under the key.  The original `createdAt` survives a re-`set` only when
the caller passes it back inside the value (as the get-mutate-save flow of the
collaborator layer does). -/
theorem set_createdAt_amended (st : SessionStore) (now : Nat) (k fid : String)
    (s : Session) (ttl : Option Nat) (hne : k ≠ "")
    (hsz : s.serializedSize ≤ 1024 * 1024)
    (hdt : now + jsOrNat ttl st.defaultTTLMs ≤ maxDateMs) :
    lookupKey (st.set now (some k) fid s ttl).2.sessions k =
      some ⟨⟨s.payload, k, s.createdAt.getD now, now, now + jsOrNat ttl st.defaultTTLMs⟩,
        now + jsOrNat ttl st.defaultTTLMs, now⟩ := by
  rw [set_resolve st now k fid s ttl hne]
  exact (setKeyed_ok_lookup st now k s ttl hsz hdt).2

/-- C7 witness: a fresh insert without a caller-supplied createdAt stores the
insertion time. -/
theorem set_createdAt_amended_witness :
    lookupKey ((SessionStore.fromOptions ⟨some 5, some 1000, none⟩).set 0 (some "a") "g"
        ⟨7, none, 10⟩ (some 100)).2.sessions "a" =
      some ⟨⟨7, "a", 0, 0, 100⟩, 100, 0⟩ :=
  set_createdAt_amended (SessionStore.fromOptions ⟨some 5, some 1000, none⟩) 0 "a" "g"
    ⟨7, none, 10⟩ (some 100) (by decide) (by decide) (by decide)

/-- C9: an expired-but-present entry discovered by `get` (or by `exists`,
which delegates to `get`) is removed with `misses` and `deletes` each
incremented by one and `evictions` untouched, whereas the sweeper's removal of
the same expired entry leaves `deletes` untouched and adds the count of swept
entries (at least one) to `evictions`: the metric attribution of a passive
expiry depends on which path discovers it. -/
theorem expiry_metric_attribution (st : SessionStore) (now : Nat) (k : String)
    (e : Entry) (hl : lookupKey st.sessions k = some e) (hexp : e.expiresAt < now) :
    (st.get now k).1 = none ∧
    (st.get now k).2.sessions = eraseKey st.sessions k ∧
    (st.get now k).2.metrics = ⟨st.metrics.hits, st.metrics.misses + 1,
      st.metrics.sets, st.metrics.deletes + 1, st.metrics.evictions⟩ ∧
    (st.exists' now k).1 = false ∧
    (st.exists' now k).2 = (st.get now k).2 ∧
    (k, e) ∉ (st.cleanupExpired now).sessions ∧
    (st.cleanupExpired now).metrics.deletes = st.metrics.deletes ∧
    (∃ c, 1 ≤ c ∧
      (st.cleanupExpired now).metrics.evictions = st.metrics.evictions + c) := by
  have hg := get_expired_spec st now k e hl hexp
  obtain ⟨hc1, hc2, hc3⟩ := cleanup_spec st now
  refine ⟨by rw [hg], by rw [hg], by rw [hg], ?_, rfl, ?_, hc2, ?_⟩
  · unfold SessionStore.exists'
    rw [hg]
    rfl
  · rw [hc1]
    intro hmem
    have hkeep := (List.mem_filter.mp hmem).2
    simp [hexp] at hkeep
  · refine ⟨(st.sessions.filter fun p => decide (p.2.expiresAt < now)).length, ?_, hc3⟩
    have hmem : (k, e) ∈ st.sessions.filter fun p => decide (p.2.expiresAt < now) :=
      List.mem_filter.mpr ⟨mem_of_lookupKey hl, by simpa using hexp⟩
    exact List.length_pos.mpr (List.ne_nil_of_mem hmem)

/-- C9 witness: the entry under `"a"` expires at 100; discovered by `get` at
time 200 it costs a miss and a delete, discovered by the sweeper it costs an
eviction. -/
theorem expiry_metric_attribution_witness :
    (((SessionStore.fromOptions ⟨some 5, some 1000, none⟩).set 0 (some "a") "g"
        ⟨7, none, 10⟩ (some 100)).2.get 200 "a").2.metrics = ⟨0, 1, 1, 1, 0⟩ ∧
    (∃ c, 1 ≤ c ∧
      (((SessionStore.fromOptions ⟨some 5, some 1000, none⟩).set 0 (some "a") "g"
          ⟨7, none, 10⟩ (some 100)).2.cleanupExpired 200).metrics.evictions =
        ((SessionStore.fromOptions ⟨some 5, some 1000, none⟩).set 0 (some "a") "g"
          ⟨7, none, 10⟩ (some 100)).2.metrics.evictions + c) :=
  ⟨(expiry_metric_attribution ((SessionStore.fromOptions ⟨some 5, some 1000, none⟩).set 0
      (some "a") "g" ⟨7, none, 10⟩ (some 100)).2 200 "a" ⟨⟨7, "a", 0, 0, 100⟩, 100, 0⟩
      (by decide) (by decide)).2.2.1,
    (expiry_metric_attribution ((SessionStore.fromOptions ⟨some 5, some 1000, none⟩).set 0
      (some "a") "g" ⟨7, none, 10⟩ (some 100)).2 200 "a" ⟨⟨7, "a", 0, 0, 100⟩, 100, 0⟩
      (by decide) (by decide)).2.2.2.2.2.2.2⟩

/-- C10: a TTL of 0 (like every falsy TTL argument) is treated as an absent
argument by both `set` and `touch`: the call behaves exactly as the call
without a TTL, and the stored entry expires at `now + defaultTTLMs` rather
than immediately. -/
theorem falsy_ttl_default (st : SessionStore) (now : Nat) (k fid : String)
    (s : Session) (hne : k ≠ "") (hsz : s.serializedSize ≤ 1024 * 1024)
    (hdt : now + st.defaultTTLMs ≤ maxDateMs) :
    st.set now (some k) fid s (some 0) = st.set now (some k) fid s none ∧
    lookupKey (st.set now (some k) fid s (some 0)).2.sessions k =
      some ⟨⟨s.payload, k, s.createdAt.getD now, now, now + st.defaultTTLMs⟩,
        now + st.defaultTTLMs, now⟩ ∧
    (∀ k2, st.touch now k2 (some 0) = st.touch now k2 none) := by
  refine ⟨rfl, ?_, fun k2 => rfl⟩
  rw [set_resolve st now k fid s (some 0) hne]
  exact (setKeyed_ok_lookup st now k s (some 0) hsz hdt).2

/-- C10 witness: `set` with TTL 0 on a fresh store stores an entry expiring at
the default TTL. -/
theorem falsy_ttl_default_witness :
    (SessionStore.fromOptions ⟨some 5, some 1000, none⟩).set 0 (some "a") "g"
        ⟨7, none, 10⟩ (some 0) =
      (SessionStore.fromOptions ⟨some 5, some 1000, none⟩).set 0 (some "a") "g"
        ⟨7, none, 10⟩ none ∧
    lookupKey ((SessionStore.fromOptions ⟨some 5, some 1000, none⟩).set 0 (some "a") "g"
        ⟨7, none, 10⟩ (some 0)).2.sessions "a" =
      some ⟨⟨7, "a", 0, 0, 1000⟩, 1000, 0⟩ :=
  ⟨(falsy_ttl_default (SessionStore.fromOptions ⟨some 5, some 1000, none⟩) 0 "a" "g"
      ⟨7, none, 10⟩ (by decide) (by decide) (by decide)).1,
    (falsy_ttl_default (SessionStore.fromOptions ⟨some 5, some 1000, none⟩) 0 "a" "g"
      ⟨7, none, 10⟩ (by decide) (by decide) (by decide)).2.1⟩

/-- C3 counterexample: an entry inserted at time 0 with TTL 100 is still
returned by `get` at exactly time 100 — the boundary instant the claim says
must already be absent (the expiry check uses a strict comparison). -/
theorem ttl_boundary_cex :
    (((SessionStore.fromOptions ⟨some 5, some 1000, none⟩).set 0 (some "a") "g"
        ⟨7, none, 10⟩ (some 100)).2.get 100 "a").1 =
      some ⟨7, "a", 0, 0, 100⟩ ∧
    (((SessionStore.fromOptions ⟨some 5, some 1000, none⟩).set 0 (some "a") "g"
        ⟨7, none, 10⟩ (some 100)).2.get 100 "a").2.metrics.hits = 1 := by
  decide

/-- C3 (amended): after a successful `set` of key `k` at time `now` with
effective TTL `t`, `get(k)` at any time `≤ now + t` — the exact boundary
included — returns the stored value as a hit, and at any time `> now + t`
returns absence, deleting the expired entry and recording both a miss and a
delete. -/
theorem get_after_set_boundary (st : SessionStore) (now now2 : Nat) (k fid : String)
    (s : Session) (ttl : Option Nat) (hne : k ≠ "")
    (hsz : s.serializedSize ≤ 1024 * 1024)
    (hdt : now + jsOrNat ttl st.defaultTTLMs ≤ maxDateMs) :
    (now2 ≤ now + jsOrNat ttl st.defaultTTLMs →
      ((st.set now (some k) fid s ttl).2.get now2 k).1 =
        some ⟨s.payload, k, s.createdAt.getD now, now,
          now + jsOrNat ttl st.defaultTTLMs⟩) ∧
    (now + jsOrNat ttl st.defaultTTLMs < now2 →
      ((st.set now (some k) fid s ttl).2.get now2 k).1 = none ∧
      ((st.set now (some k) fid s ttl).2.get now2 k).2.sessions =
        eraseKey (st.set now (some k) fid s ttl).2.sessions k ∧
      ((st.set now (some k) fid s ttl).2.get now2 k).2.metrics.misses =
        (st.set now (some k) fid s ttl).2.metrics.misses + 1 ∧
      ((st.set now (some k) fid s ttl).2.get now2 k).2.metrics.deletes =
        (st.set now (some k) fid s ttl).2.metrics.deletes + 1) := by
  rw [set_resolve st now k fid s ttl hne]
  obtain ⟨hok, hlk⟩ := setKeyed_ok_lookup st now k s ttl hsz hdt
  constructor
  · intro h2
    rw [get_live_spec _ now2 k _ hlk (by simpa using Nat.not_lt.mpr h2)]
  · intro h2
    rw [get_expired_spec _ now2 k _ hlk (by simpa using h2)]
    exact ⟨rfl, rfl, rfl, rfl⟩

/-- C3 witness: before the boundary (time 50 of a TTL-100 entry) the value is
returned. -/
theorem get_after_set_boundary_witness :
    (((SessionStore.fromOptions ⟨some 5, some 1000, none⟩).set 0 (some "a") "g"
        ⟨7, none, 10⟩ (some 100)).2.get 50 "a").1 =
      some ⟨7, "a", 0, 0, 100⟩ :=
  (get_after_set_boundary (SessionStore.fromOptions ⟨some 5, some 1000, none⟩) 0 50 "a"
    "g" ⟨7, none, 10⟩ (some 100) (by decide) (by decide) (by decide)).1 (by decide)

/-- C5: under the lru policy the eviction victim is the entry with the
strictly oldest `lastAccessed`, ties resolved in favour of the entry earliest
in map (insertion) order; and in the spec's concrete scenario — `maxEntries =
5`, insert `k0..k4`, read `k1..k4` but not `k0`, insert `k5` — exactly `k0` is
evicted, `k1..k5` stay retrievable and `stats().evictions = 1`. -/
theorem lru_evicts_oldest :
    (∀ st : SessionStore, st.evictionPolicy = "lru" → st.sessions ≠ [] →
      ∃ l1 k e l2, st.evictVictim = some k ∧ st.sessions = l1 ++ (k, e) :: l2 ∧
        (∀ p ∈ l1, e.lastAccessed < p.2.lastAccessed) ∧
        (∀ p ∈ l2, e.lastAccessed ≤ p.2.lastAccessed)) ∧
    (lruScenarioEnd.get 10 "k0").1 = none ∧
    ((lruScenarioEnd.get 10 "k1").1.isSome = true ∧
      (lruScenarioEnd.get 10 "k2").1.isSome = true ∧
      (lruScenarioEnd.get 10 "k3").1.isSome = true ∧
      (lruScenarioEnd.get 10 "k4").1.isSome = true ∧
      (lruScenarioEnd.get 10 "k5").1.isSome = true) ∧
    lruScenarioEnd.stats.evictions = 1 := by
  refine ⟨?_, by decide, by decide, by decide⟩
  intro st hpol hne
  obtain ⟨l1, k, e, l2, hfind, hsplit, hl1, hl2⟩ := lruVictim_spec st.sessions hne
  refine ⟨l1, k, e, l2, ?_, hsplit, hl1, hl2⟩
  unfold SessionStore.evictVictim
  rw [hpol, if_pos rfl, hfind]

/-- C1 counterexample: a ttl-policy store with `maxEntries = 1` holding one
entry that expires exactly at the maximal JS date (8640000000000000 ms, the
initial sentinel of the victim scan, compared strictly) evicts nothing on the
over-capacity insertion of a second key: both entries are live afterwards,
`evictions` stays 0, and the live count 2 exceeds `maxEntries = 1`. -/
theorem capacity_bound_cex :
    (runOps (SessionStore.fromOptions ⟨some 1, some 1000, some "ttl"⟩)
        [Op.opSet 0 (some "a") "g" ⟨1, none, 1⟩ (some 8640000000000000),
         Op.opSet 0 (some "b") "g" ⟨2, none, 1⟩ (some 1000)]).sessions.length = 2 ∧
    (SessionStore.fromOptions ⟨some 1, some 1000, some "ttl"⟩).maxEntries = 1 ∧
    (runOps (SessionStore.fromOptions ⟨some 1, some 1000, some "ttl"⟩)
        [Op.opSet 0 (some "a") "g" ⟨1, none, 1⟩ (some 8640000000000000),
         Op.opSet 0 (some "b") "g" ⟨2, none, 1⟩ (some 1000)]).metrics.evictions = 0 ∧
    liveEntries (runOps (SessionStore.fromOptions ⟨some 1, some 1000, some "ttl"⟩)
        [Op.opSet 0 (some "a") "g" ⟨1, none, 1⟩ (some 8640000000000000),
         Op.opSet 0 (some "b") "g" ⟨2, none, 1⟩ (some 1000)]) 0 = 2 := by
  decide

/-- C1 (amended): for a store constructed with the lru policy, or with the ttl
policy as long as every `set`/`touch` of the sequence writes an expiry
strictly below the maximal JS date, the entry count — and hence the count of
live (non-expired, non-deleted) entries at every instant — never exceeds
`maxEntries` across any operation sequence; an insertion under an
already-present key evicts nothing and keeps the entry count; and a
successful over-capacity insertion of a new key evicts exactly one entry
(`evictions` grows by exactly one and the entry count is unchanged).  As
literally stated the claim fails under the ttl policy when every stored
expiry equals the maximal JS date: the strict scan finds no victim and the
insertion exceeds capacity. -/
theorem capacity_bound_amended :
    (∀ (o : StoreOptions) (ops : List Op),
      ((SessionStore.fromOptions o).evictionPolicy = "lru" ∨
        (SessionStore.fromOptions o).evictionPolicy = "ttl") →
      1 ≤ (SessionStore.fromOptions o).maxEntries →
      ((SessionStore.fromOptions o).evictionPolicy = "ttl" →
        ∀ op ∈ ops, opExpiryBounded (SessionStore.fromOptions o).defaultTTLMs op) →
      ((runOps (SessionStore.fromOptions o) ops).sessions.length : Int) ≤
        (SessionStore.fromOptions o).maxEntries ∧
      ∀ t, ((liveEntries (runOps (SessionStore.fromOptions o) ops) t : Int) ≤
        (SessionStore.fromOptions o).maxEntries)) ∧
    (∀ (st : SessionStore) (now : Nat) (k fid : String) (s : Session) (ttl : Option Nat),
      hasKey st.sessions k = true → k ≠ "" →
      (st.set now (some k) fid s ttl).2.metrics.evictions = st.metrics.evictions ∧
      (st.set now (some k) fid s ttl).2.sessions.length = st.sessions.length) ∧
    (∀ (st : SessionStore) (now : Nat) (k fid : String) (s : Session) (ttl : Option Nat),
      (st.evictionPolicy = "lru" ∨ (st.evictionPolicy = "ttl" ∧ entriesBounded st)) →
      1 ≤ st.maxEntries → hasKey st.sessions k = false → k ≠ "" →
      st.maxEntries ≤ (st.sessions.length : Int) →
      s.serializedSize ≤ 1024 * 1024 →
      now + jsOrNat ttl st.defaultTTLMs ≤ maxDateMs →
      (st.set now (some k) fid s ttl).1 = JsResult.ok k ∧
      (st.set now (some k) fid s ttl).2.metrics.evictions = st.metrics.evictions + 1 ∧
      (st.set now (some k) fid s ttl).2.sessions.length = st.sessions.length) := by
  refine ⟨?_, ?_, ?_⟩
  · intro o ops hpol hmax hops
    have hinv0 : CapInv (SessionStore.fromOptions o) := by
      constructor
      · show ((0 : Nat) : Int) ≤ (SessionStore.fromOptions o).maxEntries
        omega
      · intro _ p hp
        simp [SessionStore.fromOptions] at hp
    have hinv := runOps_capInv ops (SessionStore.fromOptions o) hpol hmax hinv0 hops
    obtain ⟨hcfg1, _, _⟩ := runOps_config ops (SessionStore.fromOptions o)
    have hlen := hinv.1
    rw [hcfg1] at hlen
    refine ⟨hlen, ?_⟩
    intro t
    have hle : liveEntries (runOps (SessionStore.fromOptions o) ops) t ≤
        (runOps (SessionStore.fromOptions o) ops).sessions.length :=
      List.length_filter_le _ _
    omega
  · intro st now k fid s ttl hk hne
    rw [set_resolve st now k fid s ttl hne]
    exact setKeyed_present_key st now k s ttl hk
  · intro st now k fid s ttl hvic hmax hk hne hcap hsz hdt
    rw [set_resolve st now k fid s ttl hne]
    exact setKeyed_over_capacity st now k s ttl hvic hmax hk hcap hsz hdt
